import Mathlib

/-!
Verification of `generate_csharp_files.py` (MarketDataSystem scaffolding
generator).

The script holds a dict `csharp_files` mapping relative paths to literal
file contents, and a loop that, for each entry, joins the relative path
onto the hard-coded `base_path`, creates the parent directory chain
(`mkdir(parents=True, exist_ok=True)`), and writes the content with
`open(full_path, 'w', encoding='utf-8')`, printing progress lines along
the way.

We embed the script shallowly: the filesystem is a pair of a directory
predicate and a partial map from absolute paths (segment lists) to file
contents; paths are normalized lexically the way `pathlib` plus the OS
resolve them (drop `.` and empty segments, `..` pops); the write loop is
a recursion over the catalog entries that threads the filesystem,
records the written paths, the created directories and the printed
lines, and stops at the first raising entry (the script has no
try/except, so an exception aborts the loop and the process exits
nonzero).  A failure oracle on resolved paths models which writes raise.
-/

namespace MarketDataSystem

/-- One segment-splitting step: accumulate characters until a `/`. -/
def splitSegsAux : List Char → List Char → List String
  | [], acc => [String.mk acc.reverse]
  | c :: cs, acc =>
    if c = '/' then String.mk acc.reverse :: splitSegsAux cs []
    else splitSegsAux cs (c :: acc)

/-- Split a path string on `/` into raw segments (empty segments kept,
so `"/x"` splits to `["", "x"]`). -/
def splitPath (s : String) : List String :=
  splitSegsAux s.data []

/-- Lexical path normalization, as `pathlib`/the OS treat the joined
path: empty segments and `.` are dropped, `..` pops the previous
segment (at the root it is a no-op, as for the OS). -/
def normSegs (segs : List String) : List String :=
  segs.foldl
    (fun acc s =>
      if s = "" ∨ s = "." then acc
      else if s = ".." then acc.dropLast
      else acc ++ [s])
    []

/-- Whether a raw segment list came from an absolute path string
(leading `/` produces a leading empty segment). -/
def isAbsSegs : List String → Bool
  | "" :: _ => true
  | _ => false

/-- `base_path / file_path` followed by OS-level resolution: `pathlib`
replaces the base entirely when the right operand is absolute,
otherwise appends, and `.`/`..`/empty segments are normalized away.
`base` is the raw segment split of the base directory string. -/
def resolveSegs (base : List String) (rel : String) : List String :=
  let relSegs := splitPath rel
  if isAbsSegs relSegs then normSegs relSegs
  else normSegs (base ++ relSegs)

/-- Resolution against a base directory given as a string. -/
def resolveIn (baseStr : String) (rel : String) : List String :=
  resolveSegs (splitPath baseStr) rel

/-- The nonempty prefixes of a path, shortest first: the directory chain
`mkdir(parents=True)` ensures. -/
def prefixChain (p : List String) : List (List String) :=
  (List.range p.length).map (fun i => p.take (i + 1))

/-- Filesystem state: which directories exist and what content each
file path holds. -/
@[ext]
structure FS where
  dirs : List String → Bool
  files : List String → Option String

/-- The console lines the script prints, as events. -/
inductive Event where
  /-- the opening line `Creating complete C# project files...` -/
  | headerLine : Event
  /-- the line `Total files to create: n` -/
  | totalLine (n : Nat) : Event
  /-- a per-entry line `Created: relPath` -/
  | createdLine (relPath : String) : Event
  /-- the closing line `All C# files created successfully!` -/
  | bannerLine : Event
deriving DecidableEq, Repr

/-- State threaded through the write loop: the filesystem, the resolved
paths written so far (in order), the directories actually created (in
order), and the console output so far. -/
structure RunState where
  fs : FS
  written : List (List String)
  created : List (List String)
  output : List Event

/-- One run of the `for file_path, content in csharp_files.items()` loop
body on the remaining entries.  For each entry it resolves the absolute
path, creates the missing parent directories (`mkdir(parents=True,
exist_ok=True)`: idempotent, all missing prefixes created), then writes
the content (mode `w`: truncate/overwrite) and prints the confirmation
line.  `oracle q = true` means the write at resolved path `q` raises;
the script has no try/except, so the loop stops there and the exception
escapes (second component `some q`). -/
def runLoop (oracle : List String → Bool) (base : List String) :
    List (String × String) → RunState → RunState × Option (List String)
  | [], st => (st, none)
  | (p, c) :: rest, st =>
    let q := resolveSegs base p
    let parent := q.dropLast
    let newDirs := (prefixChain parent).filter (fun d => !st.fs.dirs d)
    let st1 : RunState :=
      { st with
        fs := { st.fs with
                dirs := fun d => st.fs.dirs d || (prefixChain parent).contains d }
        created := st.created ++ newDirs }
    if oracle q then (st1, some q)
    else
      runLoop oracle base rest
        { st1 with
          fs := { st1.fs with
                  files := fun r => if r = q then some c else st.fs.files r }
          written := st1.written ++ [q]
          output := st1.output ++ [Event.createdLine p] }

/-- One whole run of the script's materialization section
(lines 218–229): the two opening prints, the write loop, and — only
when the loop finished without an exception — the success banner.
Returns the final state and the uncaught exception's path, if any. -/
def runWith (oracle : List String → Bool) (baseStr : String)
    (entries : List (String × String)) (fs0 : FS) :
    RunState × Option (List String) :=
  let st0 : RunState :=
    { fs := fs0, written := [], created := []
      output := [Event.headerLine, Event.totalLine entries.length] }
  let r := runLoop oracle (splitPath baseStr) entries st0
  match r.2 with
  | none => ({ r.1 with output := r.1.output ++ [Event.bannerLine] }, none)
  | some q => (r.1, some q)

/-- The oracle under which no write raises: the ordinary successful run. -/
def noFail : List String → Bool := fun _ => false

/-- The filesystem left behind by an exception-free run. -/
def materialize (baseStr : String) (entries : List (String × String))
    (fs0 : FS) : FS :=
  (runWith noFail baseStr entries fs0).1.fs

/-- Process exit status: Python exits 0 normally and 1 on an uncaught
exception. -/
def exitCode (r : RunState × Option (List String)) : Nat :=
  match r.2 with
  | none => 0
  | some _ => 1

/-- Number of per-entry confirmation lines in the output. -/
def countCreatedLines (out : List Event) : Nat :=
  out.countP (fun ev => match ev with
    | Event.createdLine _ => true
    | _ => false)

/-- The hard-coded base directory of the script (line 10). -/
def base_path : String := "/home/claude/MarketDataSystem"

/-- `base_path` as normalized segments. -/
def baseSegs : List String := normSegs (splitPath base_path)

/-- Content of the last catalog entry (scanning from the end) whose key
resolves to `q` — what mode-`w` sequential writing leaves at `q`. -/
def lastWrite (base : List String) :
    List (String × String) → List String → Option String
  | [], _ => none
  | (p, c) :: rest, q =>
    match lastWrite base rest q with
    | some c' => some c'
    | none => if resolveSegs base p = q then some c else none

/-- A filesystem with no directories and no files. -/
def emptyFS : FS :=
  { dirs := fun _ => false, files := fun _ => none }

/-- A filesystem in which the ancestors `/home` and `/home/claude` of
the hard-coded base directory already exist (as on the machine the
script targets) and nothing else does. -/
def fs0c : FS :=
  { dirs := fun d => d == ["home"] || d == ["home", "claude"]
    files := fun _ => none }

/-- A concrete failure oracle: the write at `/b/a.txt` raises. -/
def failOracle : List String → Bool := fun q => q == ["b", "a.txt"]

/-- How many entries a run attempted: every entry that produced a file
plus, when the run died on an exception, the one that raised. -/
def attemptCount (r : RunState × Option (List String)) : Nat :=
  r.1.written.length + (match r.2 with | some _ => 1 | none => 0)

/-- Run state without the Reporter: the filesystem and the write/create
traces only, no console output. -/
structure RunStateNR where
  fs : FS
  written : List (List String)
  created : List (List String)

/-- The write loop with every print removed — `Modelled from the spec:`
the spec's Reporter-free Materializer (§4.3 says removing the Reporter
must not change what ends up on disk); identical to `runLoop` except
that no output is produced. -/
def runLoopNR (oracle : List String → Bool) (base : List String) :
    List (String × String) → RunStateNR → RunStateNR × Option (List String)
  | [], st => (st, none)
  | (p, c) :: rest, st =>
    let q := resolveSegs base p
    let parent := q.dropLast
    let newDirs := (prefixChain parent).filter (fun d => !st.fs.dirs d)
    let st1 : RunStateNR :=
      { st with
        fs := { st.fs with
                dirs := fun d => st.fs.dirs d || (prefixChain parent).contains d }
        created := st.created ++ newDirs }
    if oracle q then (st1, some q)
    else
      runLoopNR oracle base rest
        { st1 with
          fs := { st1.fs with
                  files := fun r => if r = q then some c else st.fs.files r }
          written := st1.written ++ [q] }

/-- A whole run with the Reporter removed. -/
def runWithNR (oracle : List String → Bool) (baseStr : String)
    (entries : List (String × String)) (fs0 : FS) :
    RunStateNR × Option (List String) :=
  runLoopNR oracle (splitPath baseStr) entries
    { fs := fs0, written := [], created := [] }

/-- The compiled-in catalog `csharp_files` (lines 13–216): the seven
dict insertions in order; all keys are distinct strings, so the dict
holds exactly these pairs and `.items()` yields them in this insertion
order. -/
def csharp_files : List (String × String) := [
  ("src/MarketData.Domain/MarketData.Domain.csproj",
   "<Project Sdk=\"Microsoft.NET.Sdk\">\n  <PropertyGroup>\n    <TargetFramework>net8.0</TargetFramework>\n    <Nullable>enable</Nullable>\n    <ImplicitUsings>enable</ImplicitUsings>\n  </PropertyGroup>\n</Project>\n"),
  ("src/MarketData.Domain/Entities/PriceUpdate.cs",
   "namespace MarketData.Domain.Entities;\n\n/// <summary>\n/// Represents a single price update for a financial instrument\n/// </summary>\npublic class PriceUpdate\n\x7b\n    public Guid Id \x7b get; private set; \x7d\n    public string Symbol \x7b get; private set; \x7d\n    public decimal Price \x7b get; private set; \x7d\n    public DateTime Timestamp \x7b get; private set; \x7d\n    public DateTime CreatedAt \x7b get; private set; \x7d\n\n    // Private constructor for EF Core\n    private PriceUpdate() \x7b \x7d\n\n    /// <summary>\n    /// Creates a new price update\n    /// </summary>\n    public PriceUpdate(string symbol, decimal price, DateTime timestamp)\n    \x7b\n        if (string.IsNullOrWhiteSpace(symbol))\n            throw new ArgumentException(\"Symbol cannot be empty\", nameof(symbol));\n        \n        if (price <= 0)\n            throw new ArgumentException(\"Price must be positive\", nameof(price));\n\n        Id = Guid.NewGuid();\n        Symbol = symbol.ToUpperInvariant();\n        Price = price;\n        Timestamp = timestamp;\n        CreatedAt = DateTime.UtcNow;\n    \x7d\n\n    public void UpdatePrice(decimal newPrice)\n    \x7b\n        if (newPrice <= 0)\n            throw new ArgumentException(\"Price must be positive\", nameof(newPrice));\n        \n        Price = newPrice;\n        Timestamp = DateTime.UtcNow;\n    \x7d\n\x7d\n"),
  ("src/MarketData.Domain/Entities/SymbolStatistics.cs",
   "namespace MarketData.Domain.Entities;\n\n/// <summary>\n/// Aggregated statistics for a symbol\n/// </summary>\npublic class SymbolStatistics\n\x7b\n    public string Symbol \x7b get; private set; \x7d\n    public decimal CurrentPrice \x7b get; private set; \x7d\n    public decimal MovingAverage \x7b get; private set; \x7d\n    public long UpdateCount \x7b get; private set; \x7d\n    public DateTime LastUpdateTime \x7b get; private set; \x7d\n    public decimal MinPrice \x7b get; private set; \x7d\n    public decimal MaxPrice \x7b get; private set; \x7d\n\n    private SymbolStatistics() \x7b \x7d\n\n    public SymbolStatistics(string symbol)\n    \x7b\n        Symbol = symbol ?? throw new ArgumentNullException(nameof(symbol));\n        MinPrice = decimal.MaxValue;\n        MaxPrice = decimal.MinValue;\n        UpdateCount = 0;\n    \x7d\n\n    public void Update(decimal price, decimal movingAverage)\n    \x7b\n        CurrentPrice = price;\n        MovingAverage = movingAverage;\n        UpdateCount++;\n        LastUpdateTime = DateTime.UtcNow;\n        \n        if (price < MinPrice) MinPrice = price;\n        if (price > MaxPrice) MaxPrice = price;\n    \x7d\n\x7d\n"),
  ("src/MarketData.Domain/Entities/PriceAnomaly.cs",
   "namespace MarketData.Domain.Entities;\n\n/// <summary>\n/// Represents a detected price anomaly\n/// </summary>\npublic class PriceAnomaly\n\x7b\n    public Guid Id \x7b get; private set; \x7d\n    public string Symbol \x7b get; private set; \x7d\n    public decimal OldPrice \x7b get; private set; \x7d\n    public decimal NewPrice \x7b get; private set; \x7d\n    public decimal ChangePercent \x7b get; private set; \x7d\n    public DateTime DetectedAt \x7b get; private set; \x7d\n    public string Severity \x7b get; private set; \x7d\n\n    private PriceAnomaly() \x7b \x7d\n\n    public PriceAnomaly(\n        string symbol,\n        decimal oldPrice,\n        decimal newPrice,\n        decimal changePercent)\n    \x7b\n        Id = Guid.NewGuid();\n        Symbol = symbol ?? throw new ArgumentNullException(nameof(symbol));\n        OldPrice = oldPrice;\n        NewPrice = newPrice;\n        ChangePercent = changePercent;\n        DetectedAt = DateTime.UtcNow;\n        Severity = DetermineSeverity(changePercent);\n    \x7d\n\n    private string DetermineSeverity(decimal changePercent)\n    \x7b\n        var absChange = Math.Abs(changePercent);\n        if (absChange > 5) return \"Critical\";\n        if (absChange > 3) return \"High\";\n        return \"Medium\";\n    \x7d\n\x7d\n"),
  ("src/MarketData.Domain/ValueObjects/Symbol.cs",
   "namespace MarketData.Domain.ValueObjects;\n\n/// <summary>\n/// Value object representing a trading symbol\n/// </summary>\npublic record Symbol\n\x7b\n    public string Value \x7b get; init; \x7d\n\n    public Symbol(string value)\n    \x7b\n        if (string.IsNullOrWhiteSpace(value))\n            throw new ArgumentException(\"Symbol cannot be empty\", nameof(value));\n\n        if (value.Length > 10)\n            throw new ArgumentException(\"Symbol cannot exceed 10 characters\", nameof(value));\n\n        Value = value.ToUpperInvariant();\n    \x7d\n\n    public static implicit operator string(Symbol symbol) => symbol.Value;\n    public static implicit operator Symbol(string value) => new(value);\n\n    public override string ToString() => Value;\n\x7d\n"),
  ("src/MarketData.Application/MarketData.Application.csproj",
   "<Project Sdk=\"Microsoft.NET.Sdk\">\n  <PropertyGroup>\n    <TargetFramework>net8.0</TargetFramework>\n    <Nullable>enable</Nullable>\n    <ImplicitUsings>enable</ImplicitUsings>\n  </PropertyGroup>\n\n  <ItemGroup>\n    <PackageReference Include=\"MediatR\" Version=\"12.2.0\" />\n    <PackageReference Include=\"FluentValidation\" Version=\"11.9.0\" />\n    <PackageReference Include=\"FluentValidation.DependencyInjectionExtensions\" Version=\"11.9.0\" />\n    <PackageReference Include=\"AutoMapper\" Version=\"12.0.1\" />\n    <PackageReference Include=\"Microsoft.Extensions.Logging.Abstractions\" Version=\"8.0.0\" />\n  </ItemGroup>\n\n  <ItemGroup>\n    <ProjectReference Include=\"../MarketData.Domain/MarketData.Domain.csproj\" />\n  </ItemGroup>\n</Project>\n"),
  ("src/MarketData.Application/Commands/ProcessPriceUpdateCommand.cs",
   "using MediatR;\nusing MarketData.Application.DTOs;\n\nnamespace MarketData.Application.Commands;\n\n/// <summary>\n/// Command to process a new price update\n/// Follows CQRS pattern - commands represent state changes\n/// </summary>\npublic record ProcessPriceUpdateCommand : IRequest<PriceUpdateResultDto>\n\x7b\n    public string Symbol \x7b get; init; \x7d = string.Empty;\n    public decimal Price \x7b get; init; \x7d\n    public DateTime Timestamp \x7b get; init; \x7d\n\x7d\n")
]

/-! ### Basic lemmas about the write loop -/

/-- Under the no-failure oracle the loop never raises. -/
theorem runLoop_noFail_err (base : List String)
    (entries : List (String × String)) (st : RunState) :
    (runLoop noFail base entries st).2 = none := by
  induction entries generalizing st with
  | nil => rfl
  | cons pc rest ih =>
    obtain ⟨p, c⟩ := pc
    simp only [runLoop, noFail, Bool.false_eq_true, if_false]
    exact ih _

/-- Under the no-failure oracle the loop appends exactly the resolved
path of every entry, in order, to the write trace. -/
theorem runLoop_noFail_written (base : List String)
    (entries : List (String × String)) (st : RunState) :
    (runLoop noFail base entries st).1.written =
      st.written ++ entries.map (fun e => resolveSegs base e.1) := by
  induction entries generalizing st with
  | nil => simp [runLoop]
  | cons pc rest ih =>
    obtain ⟨p, c⟩ := pc
    simp only [runLoop, noFail, Bool.false_eq_true, if_false]
    rw [ih]
    simp

/-- Under the no-failure oracle the loop appends exactly one
confirmation line per entry, in order. -/
theorem runLoop_noFail_output (base : List String)
    (entries : List (String × String)) (st : RunState) :
    (runLoop noFail base entries st).1.output =
      st.output ++ entries.map (fun e => Event.createdLine e.1) := by
  induction entries generalizing st with
  | nil => simp [runLoop]
  | cons pc rest ih =>
    obtain ⟨p, c⟩ := pc
    simp only [runLoop, noFail, Bool.false_eq_true, if_false]
    rw [ih]
    simp

/-- What the loop leaves at path `q`: the content of the last entry
resolving to `q`, or the prior content when no entry does. -/
theorem runLoop_noFail_files (base : List String)
    (entries : List (String × String)) (st : RunState) (q : List String) :
    (runLoop noFail base entries st).1.fs.files q =
      (match lastWrite base entries q with
       | some c => some c
       | none => st.fs.files q) := by
  induction entries generalizing st with
  | nil => rfl
  | cons pc rest ih =>
    obtain ⟨p, c⟩ := pc
    simp only [runLoop, noFail, Bool.false_eq_true, if_false]
    rw [ih]
    simp only [lastWrite]
    cases h : lastWrite base rest q with
    | some c' => rfl
    | none =>
      by_cases hq : resolveSegs base p = q
      · simp [hq]
      · simp [hq, Ne.symm hq]

/-- The loop only ever adds directories: the directory set is
monotone. -/
theorem runLoop_dirs_mono (oracle : List String → Bool)
    (base : List String) (entries : List (String × String))
    (st : RunState) (d : List String) (hd : st.fs.dirs d = true) :
    (runLoop oracle base entries st).1.fs.dirs d = true := by
  induction entries generalizing st with
  | nil => exact hd
  | cons pc rest ih =>
    obtain ⟨p, c⟩ := pc
    simp only [runLoop]
    by_cases h : oracle (resolveSegs base p) = true
    · simp [h, hd]
    · simp only [h, if_false]
      exact ih _ (by simp [hd])

/-- Which directories the loop creates, under any oracle: each one is
in the parent chain of some entry's resolved path. -/
theorem runLoop_created_chain (oracle : List String → Bool)
    (base : List String) (entries : List (String × String))
    (st : RunState) (d : List String)
    (hd : d ∈ (runLoop oracle base entries st).1.created) :
    d ∈ st.created ∨
      ∃ e ∈ entries, d ∈ prefixChain ((resolveSegs base e.1).dropLast) := by
  induction entries generalizing st with
  | nil => exact Or.inl hd
  | cons pc rest ih =>
    obtain ⟨p, c⟩ := pc
    simp only [runLoop] at hd
    by_cases h : oracle (resolveSegs base p) = true
    · simp only [h, if_true] at hd
      simp only [List.mem_append] at hd
      rcases hd with hd | hd
      · exact Or.inl hd
      · exact Or.inr ⟨(p, c), List.mem_cons_self _ _, List.mem_of_mem_filter hd⟩
    · simp only [h, if_false] at hd
      rcases ih _ hd with hmem | ⟨e, he, hch⟩
      · simp only [List.mem_append] at hmem
        rcases hmem with hmem | hmem
        · exact Or.inl hmem
        · exact Or.inr ⟨(p, c), List.mem_cons_self _ _, List.mem_of_mem_filter hmem⟩
      · exact Or.inr ⟨e, List.mem_cons_of_mem _ he, hch⟩

/-- Every directory the loop creates was missing from the starting
filesystem. -/
theorem runLoop_created_missing (oracle : List String → Bool)
    (base : List String) (entries : List (String × String))
    (st : RunState) (d : List String)
    (hd : d ∈ (runLoop oracle base entries st).1.created) :
    d ∈ st.created ∨ st.fs.dirs d = false := by
  induction entries generalizing st with
  | nil => exact Or.inl hd
  | cons pc rest ih =>
    obtain ⟨p, c⟩ := pc
    simp only [runLoop] at hd
    by_cases h : oracle (resolveSegs base p) = true
    · simp only [h, if_true] at hd
      simp only [List.mem_append] at hd
      rcases hd with hd | hd
      · exact Or.inl hd
      · exact Or.inr (by simpa using (List.mem_filter.mp hd).2)
    · simp only [h, if_false] at hd
      rcases ih _ hd with hmem | hmiss
      · simp only [List.mem_append] at hmem
        rcases hmem with hmem | hmem
        · exact Or.inl hmem
        · exact Or.inr (by simpa using (List.mem_filter.mp hmem).2)
      · simp only [Bool.or_eq_false_iff] at hmiss
        exact Or.inr hmiss.1

/-- The directory set after a no-failure run: the prior directories
together with the parent chain of every entry's resolved path. -/
theorem runLoop_noFail_dirs (base : List String)
    (entries : List (String × String)) (st : RunState) (d : List String) :
    (runLoop noFail base entries st).1.fs.dirs d =
      (st.fs.dirs d ||
        entries.any (fun e =>
          (prefixChain ((resolveSegs base e.1).dropLast)).contains d)) := by
  induction entries generalizing st with
  | nil => simp [runLoop]
  | cons pc rest ih =>
    obtain ⟨p, c⟩ := pc
    simp only [runLoop, noFail, Bool.false_eq_true, if_false]
    rw [ih]
    simp [Bool.or_assoc]

/-- If every entry's write succeeds, the loop raises nothing. -/
theorem runLoop_success_err (oracle : List String → Bool)
    (base : List String) (entries : List (String × String))
    (st : RunState)
    (h : ∀ e ∈ entries, oracle (resolveSegs base e.1) = false) :
    (runLoop oracle base entries st).2 = none := by
  induction entries generalizing st with
  | nil => rfl
  | cons pc rest ih =>
    obtain ⟨p, c⟩ := pc
    have hp := h (p, c) (List.mem_cons_self _ _)
    simp only [runLoop, hp, Bool.false_eq_true, if_false]
    exact ih _ (fun e he => h e (List.mem_cons_of_mem _ he))

/-- The loop raises nothing exactly when no entry's write raises. -/
theorem runLoop_err_none_iff (oracle : List String → Bool)
    (base : List String) (entries : List (String × String))
    (st : RunState) :
    (runLoop oracle base entries st).2 = none ↔
      ∀ e ∈ entries, oracle (resolveSegs base e.1) = false := by
  constructor
  · intro h
    induction entries generalizing st with
    | nil => intro e he; cases he
    | cons pc rest ih =>
      obtain ⟨p, c⟩ := pc
      by_cases hp : oracle (resolveSegs base p) = true
      · simp only [runLoop, hp, if_true] at h
        cases h
      · intro e he
        rcases List.mem_cons.mp he with rfl | he'
        · simpa using hp
        · simp only [runLoop, hp, if_false] at h
          exact ih _ h e he'
  · exact runLoop_success_err oracle base entries st

/-- When the entries split as a successful prefix, a raising entry and
a tail, the loop dies on the raising entry and the exception carries
that entry's resolved path. -/
theorem runLoop_fail_err (oracle : List String → Bool)
    (base : List String) (pre post : List (String × String))
    (p : String) (c : String) (st : RunState)
    (hpre : ∀ e ∈ pre, oracle (resolveSegs base e.1) = false)
    (hp : oracle (resolveSegs base p) = true) :
    (runLoop oracle base (pre ++ (p, c) :: post) st).2 =
      some (resolveSegs base p) := by
  induction pre generalizing st with
  | nil => simp [runLoop, hp]
  | cons pc rest ih =>
    obtain ⟨p0, c0⟩ := pc
    have hp0 := hpre (p0, c0) (List.mem_cons_self _ _)
    simp only [List.cons_append, runLoop, hp0, Bool.false_eq_true, if_false]
    exact ih _ (fun e he => hpre e (List.mem_cons_of_mem _ he))

/-- In the same situation the write trace covers exactly the
successful prefix: neither the raising entry nor the tail is ever
written. -/
theorem runLoop_fail_written (oracle : List String → Bool)
    (base : List String) (pre post : List (String × String))
    (p : String) (c : String) (st : RunState)
    (hpre : ∀ e ∈ pre, oracle (resolveSegs base e.1) = false)
    (hp : oracle (resolveSegs base p) = true) :
    (runLoop oracle base (pre ++ (p, c) :: post) st).1.written =
      st.written ++ pre.map (fun e => resolveSegs base e.1) := by
  induction pre generalizing st with
  | nil => simp [runLoop, hp]
  | cons pc rest ih =>
    obtain ⟨p0, c0⟩ := pc
    have hp0 := hpre (p0, c0) (List.mem_cons_self _ _)
    simp only [List.cons_append, runLoop, hp0, Bool.false_eq_true, if_false,
      List.append_eq]
    rw [ih _ (fun e he => hpre e (List.mem_cons_of_mem _ he))]
    simp

/-- In the same situation the output confirms exactly the successful
prefix. -/
theorem runLoop_fail_output (oracle : List String → Bool)
    (base : List String) (pre post : List (String × String))
    (p : String) (c : String) (st : RunState)
    (hpre : ∀ e ∈ pre, oracle (resolveSegs base e.1) = false)
    (hp : oracle (resolveSegs base p) = true) :
    (runLoop oracle base (pre ++ (p, c) :: post) st).1.output =
      st.output ++ pre.map (fun e => Event.createdLine e.1) := by
  induction pre generalizing st with
  | nil => simp [runLoop, hp]
  | cons pc rest ih =>
    obtain ⟨p0, c0⟩ := pc
    have hp0 := hpre (p0, c0) (List.mem_cons_self _ _)
    simp only [List.cons_append, runLoop, hp0, Bool.false_eq_true, if_false,
      List.append_eq]
    rw [ih _ (fun e he => hpre e (List.mem_cons_of_mem _ he))]
    simp

/-- Whatever the oracle does, the loop only ever appends confirmation
lines to the output. -/
theorem runLoop_output_shape (oracle : List String → Bool)
    (base : List String) (entries : List (String × String))
    (st : RunState) :
    ∃ l : List String,
      (runLoop oracle base entries st).1.output =
        st.output ++ l.map Event.createdLine := by
  induction entries generalizing st with
  | nil => exact ⟨[], by simp [runLoop]⟩
  | cons pc rest ih =>
    obtain ⟨p, c⟩ := pc
    by_cases h : oracle (resolveSegs base p) = true
    · exact ⟨[], by simp [runLoop, h]⟩
    · simp only [runLoop, h, Bool.false_eq_true, if_false]
      obtain ⟨l, hl⟩ := ih _
      refine ⟨p :: l, ?_⟩
      rw [hl]
      simp

/-- No entry resolves to `q`: nothing is left there. -/
theorem lastWrite_eq_none (base : List String)
    (entries : List (String × String)) (q : List String)
    (h : ∀ e ∈ entries, resolveSegs base e.1 ≠ q) :
    lastWrite base entries q = none := by
  induction entries with
  | nil => rfl
  | cons pc rest ih =>
    obtain ⟨p, c⟩ := pc
    simp only [lastWrite]
    rw [ih (fun e he => h e (List.mem_cons_of_mem _ he))]
    simp [h (p, c) (List.mem_cons_self _ _)]

/-- When no two entries resolve to the same path, the last write at an
entry's resolved path is that entry's own content. -/
theorem lastWrite_of_mem_nodup (base : List String)
    (entries : List (String × String)) (p : String) (c : String)
    (hm : (p, c) ∈ entries)
    (hnd : (entries.map (fun e => resolveSegs base e.1)).Nodup) :
    lastWrite base entries (resolveSegs base p) = some c := by
  induction entries with
  | nil => cases hm
  | cons pc rest ih =>
    obtain ⟨p0, c0⟩ := pc
    simp only [List.map_cons, List.nodup_cons] at hnd
    rcases List.mem_cons.mp hm with heq | hm'
    · obtain ⟨rfl, rfl⟩ := Prod.mk.injEq .. ▸ heq
      have hnone : lastWrite base rest (resolveSegs base p) = none := by
        refine lastWrite_eq_none base rest _ (fun e he => ?_)
        intro hcontra
        exact hnd.1 (hcontra ▸ List.mem_map_of_mem (fun e => resolveSegs base e.1) he)
      simp only [lastWrite, hnone]
      simp
    · simp only [lastWrite, ih hm' hnd.2]

/-- `lastWrite` over an appended catalog: the later block wins. -/
theorem lastWrite_append (base : List String)
    (xs ys : List (String × String)) (q : List String) :
    lastWrite base (xs ++ ys) q =
      (match lastWrite base ys q with
       | some c => some c
       | none => lastWrite base xs q) := by
  induction xs with
  | nil =>
    simp only [List.nil_append, lastWrite]
    cases lastWrite base ys q <;> rfl
  | cons pc rest ih =>
    obtain ⟨p, c⟩ := pc
    simp only [List.cons_append, lastWrite, List.append_eq, ih]
    cases lastWrite base ys q <;> cases lastWrite base rest q <;> rfl

/-! ### Lemmas about a whole run -/

/-- An exception-free whole run raises nothing. -/
theorem runWith_noFail_err (baseStr : String)
    (entries : List (String × String)) (fs0 : FS) :
    (runWith noFail baseStr entries fs0).2 = none := by
  simp [runWith, runLoop_noFail_err]

/-- The filesystem of a whole run is the loop's filesystem (the banner
print does not touch it). -/
theorem runWith_noFail_fs (baseStr : String)
    (entries : List (String × String)) (fs0 : FS) :
    (runWith noFail baseStr entries fs0).1.fs =
      (runLoop noFail (splitPath baseStr) entries
        { fs := fs0, written := [], created := []
          output := [Event.headerLine, Event.totalLine entries.length] }).1.fs := by
  simp [runWith, runLoop_noFail_err]

/-- An exception-free whole run writes exactly the resolved path of
every entry, in catalog order. -/
theorem runWith_noFail_written (baseStr : String)
    (entries : List (String × String)) (fs0 : FS) :
    (runWith noFail baseStr entries fs0).1.written =
      entries.map (fun e => resolveIn baseStr e.1) := by
  simp only [runWith, runLoop_noFail_err]
  rw [runLoop_noFail_written]
  simp [resolveIn]

/-- The creation trace of a whole run is the loop's creation trace. -/
theorem runWith_noFail_created (baseStr : String)
    (entries : List (String × String)) (fs0 : FS) :
    (runWith noFail baseStr entries fs0).1.created =
      (runLoop noFail (splitPath baseStr) entries
        { fs := fs0, written := [], created := []
          output := [Event.headerLine, Event.totalLine entries.length] }).1.created := by
  simp [runWith, runLoop_noFail_err]

/-- The output of an exception-free whole run: header, announced total,
one confirmation per entry in order, and the success banner. -/
theorem runWith_noFail_output (baseStr : String)
    (entries : List (String × String)) (fs0 : FS) :
    (runWith noFail baseStr entries fs0).1.output =
      [Event.headerLine, Event.totalLine entries.length] ++
        entries.map (fun e => Event.createdLine e.1) ++ [Event.bannerLine] := by
  simp only [runWith, runLoop_noFail_err]
  rw [runLoop_noFail_output]

/-- The final content at `q` after an exception-free whole run. -/
theorem runWith_noFail_files (baseStr : String)
    (entries : List (String × String)) (fs0 : FS) (q : List String) :
    (runWith noFail baseStr entries fs0).1.fs.files q =
      (match lastWrite (splitPath baseStr) entries q with
       | some c => some c
       | none => fs0.files q) := by
  rw [runWith_noFail_fs, runLoop_noFail_files]

/-- The directory set after an exception-free whole run. -/
theorem runWith_noFail_dirs (baseStr : String)
    (entries : List (String × String)) (fs0 : FS) (d : List String) :
    (runWith noFail baseStr entries fs0).1.fs.dirs d =
      (fs0.dirs d ||
        entries.any (fun e =>
          (prefixChain ((resolveIn baseStr e.1).dropLast)).contains d)) := by
  rw [runWith_noFail_fs, runLoop_noFail_dirs]
  rfl

/-- The loop with and without the Reporter: started from states that
agree on filesystem, write trace and creation trace, both loops produce
the same filesystem, write trace, creation trace and exception. -/
theorem runLoopNR_eq (oracle : List String → Bool) (base : List String)
    (entries : List (String × String)) (st : RunState) (stNR : RunStateNR)
    (hfs : st.fs = stNR.fs) (hw : st.written = stNR.written)
    (hc : st.created = stNR.created) :
    (runLoop oracle base entries st).1.fs =
        (runLoopNR oracle base entries stNR).1.fs ∧
      (runLoop oracle base entries st).1.written =
        (runLoopNR oracle base entries stNR).1.written ∧
      (runLoop oracle base entries st).1.created =
        (runLoopNR oracle base entries stNR).1.created ∧
      (runLoop oracle base entries st).2 =
        (runLoopNR oracle base entries stNR).2 := by
  induction entries generalizing st stNR with
  | nil => exact ⟨hfs, hw, hc, rfl⟩
  | cons pc rest ih =>
    obtain ⟨p, c⟩ := pc
    simp only [runLoop, runLoopNR]
    rw [hfs, hw, hc]
    by_cases h : oracle (resolveSegs base p) = true
    · simp [h]
    · simp only [h, if_false]
      exact ih _ _ rfl rfl rfl

/-- Per-entry confirmation lines alone; `countCreatedLines` counts one
per mapped entry. -/
theorem countCreatedLines_map {α : Type} (l : List α) (f : α → String) :
    countCreatedLines (l.map (fun e => Event.createdLine (f e))) = l.length := by
  induction l with
  | nil => rfl
  | cons x xs ih =>
    simp only [List.map_cons, countCreatedLines, List.countP_cons]
    simp only [countCreatedLines] at ih
    rw [ih]
    simp

/-- `countCreatedLines` distributes over append. -/
theorem countCreatedLines_append (l₁ l₂ : List Event) :
    countCreatedLines (l₁ ++ l₂) =
      countCreatedLines l₁ + countCreatedLines l₂ :=
  List.countP_append _ _ _

/-- Every parent-chain directory of the fixed catalog's resolved paths
is under the base directory, except the two pre-existing ancestors
`/home` and `/home/claude`. -/
theorem csharp_chain_under_base :
    ∀ e ∈ csharp_files,
      ∀ d ∈ prefixChain ((resolveIn base_path e.1).dropLast),
        (baseSegs.isPrefixOf d = true) ∨
          d = ["home"] ∨ d = ["home", "claude"] := by
  decide

/-! ### The claims -/

/-- C1 (Completeness of materialization): for every catalog and base
directory, after the run every entry (writes do not error in the
exception-free run; with the catalog's dict-invariant that no two
entries resolve to the same normalized path) has a file at
`normalize(join(baseDirectory, relativePath))` whose content equals the
entry's content byte for byte, whatever content the path held before
(truncate-and-overwrite, no append, no merge). -/
theorem materialize_completeness (baseStr : String)
    (entries : List (String × String)) (fs0 : FS) (p : String) (c : String)
    (hm : (p, c) ∈ entries)
    (hnd : (entries.map (fun e => resolveIn baseStr e.1)).Nodup) :
    (materialize baseStr entries fs0).files (resolveIn baseStr p) = some c := by
  simp only [materialize, resolveIn] at hnd ⊢
  rw [runWith_noFail_files]
  rw [lastWrite_of_mem_nodup (splitPath baseStr) entries p c hm hnd]

/-- Witness for C1: a concrete catalog over a prior file at the same
path; the entry's content is what remains. -/
theorem materialize_completeness_witness :
    (("a.txt", "hi") ∈ [("a.txt", "hi"), ("d/e.txt", "x")]) ∧
      (materialize "/b" [("a.txt", "hi"), ("d/e.txt", "x")]
          { dirs := fun _ => false
            files := fun r => if r = ["b", "a.txt"] then some "old" else none }).files
        (resolveIn "/b" "a.txt") = some "hi" :=
  ⟨by decide,
    materialize_completeness "/b" [("a.txt", "hi"), ("d/e.txt", "x")]
      { dirs := fun _ => false
        files := fun r => if r = ["b", "a.txt"] then some "old" else none }
      "a.txt" "hi" (by decide) (by decide)⟩

/-- C2, counterexample: the claim says an entry whose relative path
normalizes outside the base directory is reported as a `PathEscapeError`
and nothing is written outside the base.  On the code, the catalog entry
`../escape.txt` is written to `/home/claude/escape.txt` — outside the
base directory — and the run reports no error at all and still prints
the success banner. -/
theorem pathEscape_unchecked_cex :
    (runWith noFail base_path [("../escape.txt", "bad")] fs0c).2 = none ∧
      (runWith noFail base_path [("../escape.txt", "bad")] fs0c).1.written =
        [["home", "claude", "escape.txt"]] ∧
      baseSegs.isPrefixOf ["home", "claude", "escape.txt"] = false ∧
      (runWith noFail base_path [("../escape.txt", "bad")] fs0c).1.fs.files
          ["home", "claude", "escape.txt"] = some "bad" ∧
      Event.bannerLine ∈
        (runWith noFail base_path [("../escape.txt", "bad")] fs0c).1.output := by
  decide

/-- C2 as amended: the code performs no path-containment check — every
entry, including one whose relative path normalizes outside the base
directory, is written at its resolved path, and no error of any kind
(in particular no `PathEscapeError`, which does not exist in the code)
is reported for it. -/
theorem pathEscape_unchecked (baseStr : String)
    (entries : List (String × String)) (fs0 : FS) (p : String) (c : String)
    (hm : (p, c) ∈ entries)
    (_hesc : (normSegs (splitPath baseStr)).isPrefixOf (resolveIn baseStr p)
      = false) :
    (runWith noFail baseStr entries fs0).2 = none ∧
      resolveIn baseStr p ∈ (runWith noFail baseStr entries fs0).1.written := by
  refine ⟨runWith_noFail_err baseStr entries fs0, ?_⟩
  rw [runWith_noFail_written]
  exact List.mem_map_of_mem _ hm

/-- Witness for C2's amended statement at the escaping entry. -/
theorem pathEscape_unchecked_witness :
    ((normSegs (splitPath base_path)).isPrefixOf
        (resolveIn base_path "../escape.txt") = false) ∧
      ((runWith noFail base_path [("../escape.txt", "bad")] fs0c).2 = none ∧
        resolveIn base_path "../escape.txt" ∈
          (runWith noFail base_path [("../escape.txt", "bad")] fs0c).1.written) :=
  ⟨by decide,
    pathEscape_unchecked base_path [("../escape.txt", "bad")] fs0c
      "../escape.txt" "bad" (by decide) (by decide)⟩

/-- C3, counterexample: the claim says that when one entry fails every
other entry is still attempted and error-free entries still produce
their files.  On the code, when the first of two entries raises, the
loop dies with the uncaught exception: the second, error-free entry is
never attempted and its file is never written. -/
theorem failure_aborts_run_cex :
    (runWith failOracle "/b" [("a.txt", "x"), ("c.txt", "y")] emptyFS).2 =
        some ["b", "a.txt"] ∧
      (runWith failOracle "/b" [("a.txt", "x"), ("c.txt", "y")] emptyFS).1.written
        = [] ∧
      (runWith failOracle "/b" [("a.txt", "x"), ("c.txt", "y")] emptyFS).1.fs.files
        ["b", "c.txt"] = none := by
  decide

/-- C3 as amended: the code has no try/except, so when the entry after
a successful prefix raises, the run aborts at it: the exception
propagates (carrying that entry's resolved path), only the prefix was
written, and no per-entry error is recorded — the remaining entries
are never attempted. -/
theorem failure_aborts_run (oracle : List String → Bool) (baseStr : String)
    (pre post : List (String × String)) (p : String) (c : String) (fs0 : FS)
    (hpre : ∀ e ∈ pre, oracle (resolveIn baseStr e.1) = false)
    (hp : oracle (resolveIn baseStr p) = true) :
    (runWith oracle baseStr (pre ++ (p, c) :: post) fs0).2 =
        some (resolveIn baseStr p) ∧
      (runWith oracle baseStr (pre ++ (p, c) :: post) fs0).1.written =
        pre.map (fun e => resolveIn baseStr e.1) := by
  have herr := runLoop_fail_err oracle (splitPath baseStr) pre post p c
    { fs := fs0, written := [], created := []
      output := [Event.headerLine,
        Event.totalLine (pre ++ (p, c) :: post).length] } hpre hp
  have hwr := runLoop_fail_written oracle (splitPath baseStr) pre post p c
    { fs := fs0, written := [], created := []
      output := [Event.headerLine,
        Event.totalLine (pre ++ (p, c) :: post).length] } hpre hp
  simp only [runWith]
  rw [herr]
  exact ⟨rfl, by rw [hwr]; rfl⟩

/-- Witness for C3's amended statement: one successful entry, then a
raising one, then an abandoned one. -/
theorem failure_aborts_run_witness :
    (failOracle (resolveIn "/b" "a.txt") = true) ∧
      ((runWith failOracle "/b"
            ([("z.txt", "ok")] ++ ("a.txt", "x") :: [("c.txt", "y")])
            emptyFS).2 = some (resolveIn "/b" "a.txt") ∧
        (runWith failOracle "/b"
            ([("z.txt", "ok")] ++ ("a.txt", "x") :: [("c.txt", "y")])
            emptyFS).1.written =
          [("z.txt", "ok")].map (fun e => resolveIn "/b" e.1)) :=
  ⟨by decide,
    failure_aborts_run failOracle "/b" [("z.txt", "ok")] [("c.txt", "y")]
      "a.txt" "x" emptyFS (by decide) (by decide)⟩

/-- C4 (Last-write-wins on collision): when entry N precedes entry M
and both resolve to the same normalized path `q`, with no later entry
resolving to `q`, the final file at `q` holds M's content — and a
repetition of the run leaves the same content again. -/
theorem lastWriteWins (baseStr : String)
    (pre mid post : List (String × String))
    (pN cN pM cM : String) (q : List String) (fs0 : FS)
    (_hN : resolveIn baseStr pN = q) (hM : resolveIn baseStr pM = q)
    (hpost : ∀ e ∈ post, resolveIn baseStr e.1 ≠ q) :
    (materialize baseStr ((pre ++ (pN, cN) :: mid) ++ (pM, cM) :: post)
        fs0).files q = some cM ∧
      (materialize baseStr ((pre ++ (pN, cN) :: mid) ++ (pM, cM) :: post)
        (materialize baseStr ((pre ++ (pN, cN) :: mid) ++ (pM, cM) :: post)
          fs0)).files q = some cM := by
  have hlw : lastWrite (splitPath baseStr)
      ((pre ++ (pN, cN) :: mid) ++ (pM, cM) :: post) q = some cM := by
    rw [lastWrite_append]
    have hnone : lastWrite (splitPath baseStr) post q = none :=
      lastWrite_eq_none _ post q hpost
    have hM' : resolveSegs (splitPath baseStr) pM = q := hM
    simp [lastWrite, hnone, hM']
  constructor
  · simp only [materialize]
    rw [runWith_noFail_files, hlw]
  · simp only [materialize]
    rw [runWith_noFail_files, hlw]

/-- Witness for C4: two distinct dict keys (`a/./b.txt` and `a/b.txt`)
that normalize to the same path; the later entry's content remains. -/
theorem lastWriteWins_witness :
    (resolveIn "/b" "a/./b.txt" = ["b", "a", "b.txt"]) ∧
      (resolveIn "/b" "a/b.txt" = ["b", "a", "b.txt"]) ∧
      ((materialize "/b" (([] ++ ("a/./b.txt", "hello") :: []) ++
            ("a/b.txt", "world") :: []) emptyFS).files ["b", "a", "b.txt"] =
          some "world" ∧
        (materialize "/b" (([] ++ ("a/./b.txt", "hello") :: []) ++
            ("a/b.txt", "world") :: [])
          (materialize "/b" (([] ++ ("a/./b.txt", "hello") :: []) ++
            ("a/b.txt", "world") :: []) emptyFS)).files ["b", "a", "b.txt"] =
          some "world") :=
  ⟨by decide, by decide,
    lastWriteWins "/b" [] [] [] "a/./b.txt" "hello" "a/b.txt" "world"
      ["b", "a", "b.txt"] emptyFS (by decide) (by decide) (by decide)⟩

/-- C5 (Idempotence): running the materialization twice with the same
catalog and base directory leaves the same filesystem as running it
once (mode-`w` overwrite and `exist_ok=True` directory creation are
both idempotent), and the second run raises no error even though every
directory already exists. -/
theorem materialize_idempotent (baseStr : String)
    (entries : List (String × String)) (fs0 : FS) :
    materialize baseStr entries (materialize baseStr entries fs0) =
        materialize baseStr entries fs0 ∧
      (runWith noFail baseStr entries (materialize baseStr entries fs0)).2 =
        none := by
  refine ⟨?_, runWith_noFail_err _ _ _⟩
  simp only [materialize]
  apply FS.ext
  · funext d
    rw [runWith_noFail_dirs baseStr entries
        ((runWith noFail baseStr entries fs0).1.fs) d,
      runWith_noFail_dirs baseStr entries fs0 d,
      Bool.or_assoc, Bool.or_self]
  · funext q
    rw [runWith_noFail_files baseStr entries
        ((runWith noFail baseStr entries fs0).1.fs) q,
      runWith_noFail_files baseStr entries fs0 q]
    cases lastWrite (splitPath baseStr) entries q <;> rfl

/-- C6, counterexample: the claim says that in every run the announced
catalog size equals the number of materialization attempts and the
number of reported per-entry outcomes.  In a run whose first of two
entries raises, the announced total is 2 but only one entry is ever
attempted and no per-entry outcome line (success or failure) is
reported at all. -/
theorem report_counts_cex :
    Event.totalLine 2 ∈
        (runWith failOracle "/b" [("a.txt", "x"), ("c.txt", "y")] emptyFS).1.output ∧
      attemptCount (runWith failOracle "/b" [("a.txt", "x"), ("c.txt", "y")] emptyFS)
          = 1 ∧
      ¬ attemptCount (runWith failOracle "/b" [("a.txt", "x"), ("c.txt", "y")] emptyFS)
          = 2 ∧
      countCreatedLines
          (runWith failOracle "/b" [("a.txt", "x"), ("c.txt", "y")] emptyFS).1.output
          = 0 ∧
      ¬ countCreatedLines
          (runWith failOracle "/b" [("a.txt", "x"), ("c.txt", "y")] emptyFS).1.output
          = 2 := by
  decide

/-- C6 as amended: in an exception-free run the announced total equals
the catalog length, the number of attempts, and the number of per-entry
confirmation lines.  In a run whose entry after a successful prefix
raises, the announced total is still the full catalog length, but the
confirmation lines cover exactly the successful prefix — strictly
fewer than the announced total — the attempts number that prefix plus
the raising entry, and no per-entry failure outcome is recorded (the
only per-entry reporting is the confirmation line). -/
theorem report_counts :
    (∀ (baseStr : String) (entries : List (String × String)) (fs0 : FS),
      Event.totalLine entries.length ∈
          (runWith noFail baseStr entries fs0).1.output ∧
        attemptCount (runWith noFail baseStr entries fs0) = entries.length ∧
        countCreatedLines (runWith noFail baseStr entries fs0).1.output =
          entries.length) ∧
    (∀ (oracle : List String → Bool) (baseStr : String)
        (pre post : List (String × String)) (p c : String) (fs0 : FS),
      (∀ e ∈ pre, oracle (resolveIn baseStr e.1) = false) →
      oracle (resolveIn baseStr p) = true →
      Event.totalLine (pre ++ (p, c) :: post).length ∈
          (runWith oracle baseStr (pre ++ (p, c) :: post) fs0).1.output ∧
        countCreatedLines
            (runWith oracle baseStr (pre ++ (p, c) :: post) fs0).1.output =
          pre.length ∧
        attemptCount (runWith oracle baseStr (pre ++ (p, c) :: post) fs0) =
          pre.length + 1 ∧
        pre.length < (pre ++ (p, c) :: post).length) := by
  constructor
  · intro baseStr entries fs0
    refine ⟨?_, ?_, ?_⟩
    · rw [runWith_noFail_output]
      simp
    · simp only [attemptCount, runWith_noFail_err, runWith_noFail_written]
      simp
    · rw [runWith_noFail_output, countCreatedLines_append,
        countCreatedLines_append, countCreatedLines_map entries (fun e => e.1)]
      simp [countCreatedLines]
  · intro oracle baseStr pre post p c fs0 hpre hp
    have herr := runLoop_fail_err oracle (splitPath baseStr) pre post p c
      { fs := fs0, written := [], created := []
        output := [Event.headerLine,
          Event.totalLine (pre ++ (p, c) :: post).length] } hpre hp
    have hwr := runLoop_fail_written oracle (splitPath baseStr) pre post p c
      { fs := fs0, written := [], created := []
        output := [Event.headerLine,
          Event.totalLine (pre ++ (p, c) :: post).length] } hpre hp
    have hout := runLoop_fail_output oracle (splitPath baseStr) pre post p c
      { fs := fs0, written := [], created := []
        output := [Event.headerLine,
          Event.totalLine (pre ++ (p, c) :: post).length] } hpre hp
    simp only [runWith]
    rw [herr]
    refine ⟨?_, ?_, ?_, ?_⟩
    · rw [hout]
      simp
    · rw [hout, countCreatedLines_append,
        countCreatedLines_map pre (fun e => e.1)]
      simp [countCreatedLines]
    · simp only [attemptCount]
      rw [hwr]
      simp
    · simp [List.length_append]

/-- Witness for the amended C6 statement: a three-entry run raising at
its middle entry confirms one entry, attempts two, and announces
three. -/
theorem report_counts_witness :
    (failOracle (resolveIn "/b" "a.txt") = true) ∧
      (Event.totalLine ([("z.txt", "ok")] ++ ("a.txt", "x") ::
            [("c.txt", "y")]).length ∈
          (runWith failOracle "/b"
            ([("z.txt", "ok")] ++ ("a.txt", "x") :: [("c.txt", "y")])
            emptyFS).1.output ∧
        countCreatedLines
            (runWith failOracle "/b"
              ([("z.txt", "ok")] ++ ("a.txt", "x") :: [("c.txt", "y")])
              emptyFS).1.output = [("z.txt", "ok")].length ∧
        attemptCount
            (runWith failOracle "/b"
              ([("z.txt", "ok")] ++ ("a.txt", "x") :: [("c.txt", "y")])
              emptyFS) = [("z.txt", "ok")].length + 1 ∧
        [("z.txt", "ok")].length <
          ([("z.txt", "ok")] ++ ("a.txt", "x") :: [("c.txt", "y")]).length) :=
  ⟨by decide,
    report_counts.2 failOracle "/b" [("z.txt", "ok")] [("c.txt", "y")]
      "a.txt" "x" emptyFS (by decide) (by decide)⟩

/-- C7 (No silent success): a run raises exactly when some entry's
write raises; a run that raised exits nonzero (the uncaught exception)
and never prints the success banner, and a run with no failure exits
zero and prints the banner. -/
theorem exit_signal (oracle : List String → Bool) (baseStr : String)
    (entries : List (String × String)) (fs0 : FS) :
    ((runWith oracle baseStr entries fs0).2 = none ↔
        ∀ e ∈ entries, oracle (resolveIn baseStr e.1) = false) ∧
      ((runWith oracle baseStr entries fs0).2 ≠ none →
        exitCode (runWith oracle baseStr entries fs0) = 1 ∧
          Event.bannerLine ∉ (runWith oracle baseStr entries fs0).1.output) ∧
      ((runWith oracle baseStr entries fs0).2 = none →
        exitCode (runWith oracle baseStr entries fs0) = 0 ∧
          Event.bannerLine ∈ (runWith oracle baseStr entries fs0).1.output) := by
  have hiff := runLoop_err_none_iff oracle (splitPath baseStr) entries
    { fs := fs0, written := [], created := []
      output := [Event.headerLine, Event.totalLine entries.length] }
  have hshape := runLoop_output_shape oracle (splitPath baseStr) entries
    { fs := fs0, written := [], created := []
      output := [Event.headerLine, Event.totalLine entries.length] }
  simp only [runWith]
  cases herr : (runLoop oracle (splitPath baseStr) entries
      { fs := fs0, written := [], created := []
        output := [Event.headerLine, Event.totalLine entries.length] }).2 with
  | none =>
    refine ⟨⟨fun _ => (herr ▸ hiff).mp rfl, fun _ => rfl⟩, ?_, ?_⟩
    · intro h
      exact absurd rfl h
    · intro _
      refine ⟨rfl, ?_⟩
      simp
  | some q =>
    refine ⟨⟨fun h => absurd h (by simp), ?_⟩, ?_, ?_⟩
    · intro hall
      have := hiff.mpr hall
      rw [herr] at this
      cases this
    · intro _
      refine ⟨rfl, ?_⟩
      obtain ⟨l, hl⟩ := hshape
      simp [hl]
    · intro h
      cases h

/-- Witness for C7: the failing branch at a concrete raising run. -/
theorem exit_signal_witness :
    exitCode (runWith failOracle "/b" [("a.txt", "x")] emptyFS) = 1 ∧
      Event.bannerLine ∉
        (runWith failOracle "/b" [("a.txt", "x")] emptyFS).1.output :=
  (exit_signal failOracle "/b" [("a.txt", "x")] emptyFS).2.1 (by decide)

/-- C8 (Reporter noninterference): under any oracle, catalog and base
directory, the run with every print removed produces the same
filesystem, the same write and directory-creation traces and the same
exception as the printing run — the Reporter changes nothing on
disk. -/
theorem reporter_noninterference (oracle : List String → Bool)
    (baseStr : String) (entries : List (String × String)) (fs0 : FS) :
    (runWith oracle baseStr entries fs0).1.fs =
        (runWithNR oracle baseStr entries fs0).1.fs ∧
      (runWith oracle baseStr entries fs0).1.written =
        (runWithNR oracle baseStr entries fs0).1.written ∧
      (runWith oracle baseStr entries fs0).1.created =
        (runWithNR oracle baseStr entries fs0).1.created ∧
      (runWith oracle baseStr entries fs0).2 =
        (runWithNR oracle baseStr entries fs0).2 := by
  have h := runLoopNR_eq oracle (splitPath baseStr) entries
    { fs := fs0, written := [], created := []
      output := [Event.headerLine, Event.totalLine entries.length] }
    { fs := fs0, written := [], created := [] } rfl rfl rfl
  simp only [runWith, runWithNR]
  cases herr : (runLoop oracle (splitPath baseStr) entries
      { fs := fs0, written := [], created := []
        output := [Event.headerLine, Event.totalLine entries.length] }).2 with
  | none =>
    refine ⟨h.1, h.2.1, h.2.2.1, ?_⟩
    rw [← h.2.2.2, herr]
  | some q =>
    refine ⟨h.1, h.2.1, h.2.2.1, ?_⟩
    rw [← h.2.2.2, herr]

/-- C9 (Implicit — fixed-root containment): in the script's own run
(the compiled-in catalog against the hard-coded base path, on a
filesystem where the base directory's ancestors `/home` and
`/home/claude` already exist), every file written and every directory
created lies under `/home/claude/MarketDataSystem` — because every
compiled-in key is a forward-slash relative path with no
parent-directory segments. -/
theorem fixedRoot_containment (fs0 : FS)
    (h1 : fs0.dirs ["home"] = true) (h2 : fs0.dirs ["home", "claude"] = true) :
    (∀ q ∈ (runWith noFail base_path csharp_files fs0).1.written,
        baseSegs.isPrefixOf q = true) ∧
      (∀ d ∈ (runWith noFail base_path csharp_files fs0).1.created,
        baseSegs.isPrefixOf d = true) := by
  constructor
  · rw [runWith_noFail_written]
    decide
  · intro d hd
    rw [runWith_noFail_created] at hd
    have hchain := runLoop_created_chain noFail (splitPath base_path)
      csharp_files
      { fs := fs0, written := [], created := []
        output := [Event.headerLine, Event.totalLine csharp_files.length] }
      d hd
    have hmiss := runLoop_created_missing noFail (splitPath base_path)
      csharp_files
      { fs := fs0, written := [], created := []
        output := [Event.headerLine, Event.totalLine csharp_files.length] }
      d hd
    rcases hchain with hfalse | ⟨e, he, hch⟩
    · cases hfalse
    rcases hmiss with hfalse | hdirs
    · cases hfalse
    rcases csharp_chain_under_base e he d hch with hpre | rfl | rfl
    · exact hpre
    · rw [h1] at hdirs
      cases hdirs
    · rw [h2] at hdirs
      cases hdirs

/-- Witness for C9: with the two ancestor directories present, the
first written file's path is under the base. -/
theorem fixedRoot_containment_witness :
    (fs0c.dirs ["home"] = true) ∧
      baseSegs.isPrefixOf
        ["home", "claude", "MarketDataSystem", "src", "MarketData.Domain",
          "MarketData.Domain.csproj"] = true :=
  ⟨by decide,
    (fixedRoot_containment fs0c (by decide) (by decide)).1
      ["home", "claude", "MarketDataSystem", "src", "MarketData.Domain",
        "MarketData.Domain.csproj"] (by decide)⟩

/-- C10 (Implicit — distinct-path catalog): the compiled-in dict's keys
are pairwise distinct; one run writes exactly one file per key, in
insertion order — `len(csharp_files)` writes in total, each to a
distinct resolved path, so no file is written twice in one run. -/
theorem distinct_paths_single_write (fs0 : FS) :
    (csharp_files.map Prod.fst).Nodup ∧
      (runWith noFail base_path csharp_files fs0).1.written =
        csharp_files.map (fun e => resolveIn base_path e.1) ∧
      (runWith noFail base_path csharp_files fs0).1.written.Nodup ∧
      (runWith noFail base_path csharp_files fs0).1.written.length =
        csharp_files.length := by
  have hw := runWith_noFail_written base_path csharp_files fs0
  refine ⟨by decide, hw, ?_, ?_⟩
  · rw [hw]
    decide
  · rw [hw, List.length_map]

end MarketDataSystem
